import Mathlib

/-!
Verification of the pivot-table aggregation of `plot_simulated_data_tmrca_mu.py`
(repository `treetime_validation`).

The function `create_pivot_table(df, T_over_N, mean_or_median)` takes a table of
per-simulation records, optionally keeps only the records with `T / N == T_over_N`,
groups the remaining records by the derived key `Nmu = N * Sim_mu`, computes a
central tendency and a spread of the per-record errors
`e_mu = -(Sim_mu - mu)/Sim_mu` and `e_t = dTmrca / N` in every group
(`mean`/`np.std` or `np.median`/interquartile range via `np.percentile`), and
returns one summary row per group, sorted ascending by `Nmu`.

The embedding below models the numeric values exactly, as rationals; the only
real-number ingredient is the square root inside `np.std`, so the statistics
fields of a summary row live in `ℝ` (and the definitions touching them are
`noncomputable`), while every structural part (filtering, grouping, sorting,
percentiles) is computable over `ℚ`.
-/

namespace TreetimeValidation

/-- One row of the raw results table, with the columns that
`create_pivot_table` reads (docstring of `create_pivot_table`): `T` (total
evolution time), `N` (population size), `Sim_mu` (simulated mutation rate),
`mu` (reconstructed mutation rate), `Sim_Tmrca` and `Tmrca` (simulated and
reconstructed Tmrca). -/
structure Record where
  N : ℚ
  T : ℚ
  Sim_mu : ℚ
  mu : ℚ
  Sim_Tmrca : ℚ
  Tmrca : ℚ
deriving DecidableEq

/-- Derived column `dTmrca = -(Sim_Tmrca - Tmrca)`: line 44 of
`plot_simulated_data_tmrca_mu.py` (`read_treetime_results_csv`). -/
def dTmrca (r : Record) : ℚ := -(r.Sim_Tmrca - r.Tmrca)

/-- Derived column `Nmu = N * Sim_mu`: line 50 of
`plot_simulated_data_tmrca_mu.py`. -/
def Nmu (r : Record) : ℚ := r.N * r.Sim_mu

/-- Per-record relative mutation-rate error
`dMu = -(Sim_mu - mu) / Sim_mu`: line 153 of `create_pivot_table`. -/
def e_mu (r : Record) : ℚ := -(r.Sim_mu - r.mu) / r.Sim_mu

/-- Per-record normalized Tmrca error `dTmrca / N`: line 157 of
`create_pivot_table`. -/
def e_t (r : Record) : ℚ := dTmrca r / r.N

/-- `np.mean`: arithmetic mean of a list (the code applies it only to nonempty
groups, so the `0 / 0 = 0` convention of `ℚ` for the empty list is never
exercised). -/
def np_mean (xs : List ℚ) : ℚ := xs.sum / xs.length

/-- Population variance (the square of `np.std` with its default `ddof = 0`):
mean of the squared deviations from the mean, divisor `n`. -/
def np_var (xs : List ℚ) : ℚ := np_mean (xs.map (fun x => (x - np_mean xs) ^ 2))

/-- `np.std` with default `ddof = 0`: the population standard deviation, the
square root of the population variance. -/
noncomputable def np_std (xs : List ℚ) : ℝ := Real.sqrt (np_var xs)

/-- `np.percentile xs p` with numpy's default linear interpolation between
closest ranks: sort the data ascending, set `pos = p/100 * (n-1)`, and linearly
interpolate between the entries at ranks `⌊pos⌋` and `⌊pos⌋ + 1`.  (The code
applies it only to nonempty groups.) -/
def np_percentile (xs : List ℚ) (p : ℚ) : ℚ :=
  let s := List.insertionSort (· ≤ ·) xs
  let n : ℕ := s.length
  let pos : ℚ := p / 100 * ((n : ℚ) - 1)
  let i : ℕ := (Int.floor pos).toNat
  let frac : ℚ := pos - (i : ℚ)
  let a := s.getD i 0
  let b := s.getD (i + 1) a
  a + frac * (b - a)

/-- `np.median`: the 50th percentile with linear interpolation, which is the
usual median (middle element, or average of the two middle elements). -/
def np_median (xs : List ℚ) : ℚ := np_percentile xs 50

/-- `np.unique`: the distinct values of a list, sorted ascending. -/
def uniqueSorted (l : List ℚ) : List ℚ := List.insertionSort (· ≤ ·) l.dedup

/-- Lines 134-137 of `create_pivot_table`: `DF = df[df["T"]/df["N"] == T_over_N]`
when a ratio filter is given (exact equality on the derived ratio), `DF = df`
otherwise. -/
def filterDF (df : List Record) (T_over_N : Option ℚ) : List Record :=
  match T_over_N with
  | some r => df.filter (fun q => decide (q.T / q.N = r))
  | none => df

/-- Line 148 of `create_pivot_table`: the subset `idxs = DF.Nmu == N_MU` of the
filtered table that forms the group of the key `v`. -/
def groupOf (F : List Record) (v : ℚ) : List Record :=
  F.filter (fun q => decide (Nmu q = v))

/-- The group's `e_mu` values (line 153, `dMu` before sorting). -/
def eMuList (F : List Record) (v : ℚ) : List ℚ := (groupOf F v).map e_mu

/-- The group's `e_t` values (line 157, `dTmrca/N` before sorting). -/
def eTList (F : List Record) (v : ℚ) : List ℚ := (groupOf F v).map e_t

/-- Lines 153-154: the group's `e_mu` values, sorted
(`dMu.sort_values(inplace=True)`). -/
def sortedEMu (F : List Record) (v : ℚ) : List ℚ :=
  List.insertionSort (· ≤ ·) (eMuList F v)

/-- Lines 157-158: the group's `e_t` values, sorted. -/
def sortedET (F : List Record) (v : ℚ) : List ℚ :=
  List.insertionSort (· ≤ ·) (eTList F v)

/-- One summary row of the pivot table (lines 176-182): the group key and the
four group statistics.  The statistics live in `ℝ` because the `mean` branch
emits the (generally irrational) standard deviation. -/
structure Row where
  Nmu : ℚ
  dMu_mean : ℝ
  dMu_err : ℝ
  dTmrca_mean : ℝ
  dTmrca_err : ℝ

/-- Lines 161-173 of `create_pivot_table`: the statistics of the group of the
key `v`.  `if mean_or_median == "mean"` emits mean / standard deviation;
the `else` branch (taken for every other method string) emits median /
interquartile range via `np.percentile(_, [75, 25])`. -/
noncomputable def mkRow (m : String) (F : List Record) (v : ℚ) : Row :=
  if m = "mean" then
    { Nmu := v
      dMu_mean := (np_mean (sortedEMu F v) : ℝ)
      dMu_err := np_std (sortedEMu F v)
      dTmrca_mean := (np_mean (sortedET F v) : ℝ)
      dTmrca_err := np_std (sortedET F v) }
  else
    { Nmu := v
      dMu_mean := (np_median (sortedEMu F v) : ℝ)
      dMu_err := ((np_percentile (sortedEMu F v) 75 - np_percentile (sortedEMu F v) 25 : ℚ) : ℝ)
      dTmrca_mean := (np_median (sortedET F v) : ℝ)
      dTmrca_err := ((np_percentile (sortedET F v) 75 - np_percentile (sortedET F v) 25 : ℚ) : ℝ) }

/-- Lines 147-173: one loop iteration.  A candidate key whose group is empty is
skipped (`if idxs.sum() == 0: continue`, lines 149-151); otherwise the group's
summary row is produced. -/
noncomputable def groupRow (m : String) (F : List Record) (v : ℚ) : Option Row :=
  if (groupOf F v).length = 0 then none else some (mkRow m F v)

/-- The order on summary rows used by the final `res.sort_values(by='Nmu')`:
compare the group keys. -/
def rowLE (a b : Row) : Prop := a.Nmu ≤ b.Nmu

instance : DecidableRel rowLE := fun a b => inferInstanceAs (Decidable (a.Nmu ≤ b.Nmu))

instance : IsTotal Row rowLE := ⟨fun a b => le_total a.Nmu b.Nmu⟩

instance : IsTrans Row rowLE := ⟨fun _ _ _ hab hbc => le_trans hab hbc⟩

/-- `create_pivot_table` (lines 101-184 of `plot_simulated_data_tmrca_mu.py`):
filter by the ratio (lines 134-137), enumerate candidate keys
`N_MUS = np.unique(DF.Nmu)` (line 139), produce one row per nonempty group
(lines 147-182, row-wise view of the four parallel statistic lists zipped with
`N_MUS[N_MUS_idxs]` in the `pandas.DataFrame` constructor), and sort the result
by `Nmu` (line 183; the keys are distinct, so the sort is order-unambiguous). -/
noncomputable def create_pivot_table (df : List Record) (T_over_N : Option ℚ)
    (mean_or_median : String) : List Row :=
  List.insertionSort rowLE
    ((uniqueSorted ((filterDF df T_over_N).map Nmu)).filterMap
      (groupRow mean_or_median (filterDF df T_over_N)))

/-! ### Basic structural lemmas -/

theorem mem_uniqueSorted {l : List ℚ} {v : ℚ} : v ∈ uniqueSorted l ↔ v ∈ l := by
  simp [uniqueSorted, List.mem_insertionSort, List.mem_dedup]

theorem nodup_uniqueSorted (l : List ℚ) : (uniqueSorted l).Nodup :=
  ((List.perm_insertionSort _ _).nodup_iff).mpr l.nodup_dedup

theorem groupOf_ne_nil {F : List Record} {v : ℚ} (h : ∃ x ∈ F, Nmu x = v) :
    groupOf F v ≠ [] := by
  obtain ⟨x, hx, hv⟩ := h
  have hmem : x ∈ groupOf F v := List.mem_filter.mpr ⟨hx, by simp [hv]⟩
  intro hnil
  rw [hnil] at hmem
  exact List.not_mem_nil x hmem

theorem groupRow_of_ne_nil (m : String) {F : List Record} {v : ℚ}
    (h : groupOf F v ≠ []) : groupRow m F v = some (mkRow m F v) := by
  unfold groupRow
  rw [if_neg (by simpa [List.length_eq_zero] using h)]

theorem groupRow_eq_some {m : String} {F : List Record} {v : ℚ} {row : Row}
    (h : groupRow m F v = some row) :
    groupOf F v ≠ [] ∧ row = mkRow m F v := by
  unfold groupRow at h
  by_cases hlen : (groupOf F v).length = 0
  · rw [if_pos hlen] at h
    exact absurd h (by simp)
  · rw [if_neg hlen] at h
    refine ⟨fun hnil => hlen (by rw [hnil]; rfl), (Option.some_inj.mp h).symm⟩

theorem mkRow_Nmu (m : String) (F : List Record) (v : ℚ) : (mkRow m F v).Nmu = v := by
  unfold mkRow
  split <;> rfl

theorem mem_pivot_iff {df : List Record} {t : Option ℚ} {m : String} {row : Row} :
    row ∈ create_pivot_table df t m ↔
      ∃ v ∈ uniqueSorted ((filterDF df t).map Nmu),
        groupRow m (filterDF df t) v = some row := by
  unfold create_pivot_table
  rw [List.mem_insertionSort, List.mem_filterMap]

theorem forall_mem_uniqueSorted_exists (df : List Record) (t : Option ℚ) :
    ∀ v ∈ uniqueSorted ((filterDF df t).map Nmu), ∃ x ∈ filterDF df t, Nmu x = v := by
  intro v hv
  rw [mem_uniqueSorted, List.mem_map] at hv
  obtain ⟨x, hx, hxv⟩ := hv
  exact ⟨x, hx, hxv⟩

theorem length_filterMap_groupRow (m : String) (F : List Record) :
    ∀ l : List ℚ, (∀ v ∈ l, ∃ x ∈ F, Nmu x = v) →
      (l.filterMap (groupRow m F)).length = l.length
  | [], _ => rfl
  | v :: l, h => by
    rw [List.filterMap_cons_some
          (groupRow_of_ne_nil m (groupOf_ne_nil (h v (List.mem_cons_self v l)))),
        List.length_cons, List.length_cons,
        length_filterMap_groupRow m F l (fun w hw => h w (List.mem_cons_of_mem v hw))]

/-- The summary table has exactly one row per distinct `Nmu` value of the
filtered subset. -/
theorem pivot_length_eq (df : List Record) (t : Option ℚ) (m : String) :
    (create_pivot_table df t m).length = ((filterDF df t).map Nmu).dedup.length := by
  unfold create_pivot_table
  rw [(List.perm_insertionSort rowLE _).length_eq,
      length_filterMap_groupRow m (filterDF df t) _ (forall_mem_uniqueSorted_exists df t)]
  unfold uniqueSorted
  exact (List.perm_insertionSort _ _).length_eq

/-! ### Statistic lemmas -/

theorem np_mean_perm {l₁ l₂ : List ℚ} (h : l₁.Perm l₂) : np_mean l₁ = np_mean l₂ := by
  unfold np_mean
  rw [h.sum_eq, h.length_eq]

theorem np_var_perm {l₁ l₂ : List ℚ} (h : l₁.Perm l₂) : np_var l₁ = np_var l₂ := by
  unfold np_var
  rw [np_mean_perm (h.map (fun x => (x - np_mean l₁) ^ 2))]
  simp only [np_mean_perm h]

theorem np_mean_insertionSort (xs : List ℚ) :
    np_mean (List.insertionSort (· ≤ ·) xs) = np_mean xs :=
  np_mean_perm (List.perm_insertionSort _ xs)

theorem np_var_insertionSort (xs : List ℚ) :
    np_var (List.insertionSort (· ≤ ·) xs) = np_var xs :=
  np_var_perm (List.perm_insertionSort _ xs)

theorem np_percentile_insertionSort (xs : List ℚ) (p : ℚ) :
    np_percentile (List.insertionSort (· ≤ ·) xs) p = np_percentile xs p := by
  unfold np_percentile
  rw [List.Sorted.insertionSort_eq (List.sorted_insertionSort _ xs)]

theorem np_var_nonneg (l : List ℚ) : 0 ≤ np_var l := by
  unfold np_var np_mean
  apply div_nonneg
  · apply List.sum_nonneg
    intro x hx
    rw [List.mem_map] at hx
    obtain ⟨y, -, rfl⟩ := hx
    positivity
  · exact Nat.cast_nonneg _

theorem np_mean_singleton (x : ℚ) : np_mean [x] = x := by
  simp [np_mean]

theorem np_var_singleton (x : ℚ) : np_var [x] = 0 := by
  simp [np_var, np_mean]

theorem np_percentile_singleton (x p : ℚ) : np_percentile [x] p = x := by
  unfold np_percentile
  norm_num

/-- Population variance with the divisor `n` (not `n - 1`) made explicit. -/
theorem np_var_eq (l : List ℚ) :
    np_var l = (l.map (fun x => (x - np_mean l) ^ 2)).sum / l.length := by
  unfold np_var np_mean
  rw [List.length_map]

/-- Every summary row is the row constructed from its own group. -/
theorem mem_pivot_elim {df : List Record} {t : Option ℚ} {m : String} {row : Row}
    (h : row ∈ create_pivot_table df t m) :
    row = mkRow m (filterDF df t) row.Nmu := by
  obtain ⟨v, hv, hg⟩ := mem_pivot_iff.mp h
  obtain ⟨-, hrow_eq⟩ := groupRow_eq_some hg
  have hNmu : row.Nmu = v := by rw [hrow_eq, mkRow_Nmu]
  rw [hNmu]
  exact hrow_eq

/-- The fields emitted by the median branch (`else`, lines 167-173). -/
theorem mkRow_not_mean (m : String) (hm : m ≠ "mean") (F : List Record) (v : ℚ) :
    mkRow m F v =
      { Nmu := v
        dMu_mean := (np_median (eMuList F v) : ℝ)
        dMu_err := ((np_percentile (eMuList F v) 75 - np_percentile (eMuList F v) 25 : ℚ) : ℝ)
        dTmrca_mean := (np_median (eTList F v) : ℝ)
        dTmrca_err := ((np_percentile (eTList F v) 75 - np_percentile (eTList F v) 25 : ℚ) : ℝ) } := by
  unfold mkRow
  rw [if_neg hm]
  simp [sortedEMu, sortedET, np_median, np_percentile_insertionSort]

/-- The fields emitted by the mean branch (lines 161-166). -/
theorem mkRow_mean (F : List Record) (v : ℚ) :
    mkRow "mean" F v =
      { Nmu := v
        dMu_mean := (np_mean (eMuList F v) : ℝ)
        dMu_err := Real.sqrt (np_var (eMuList F v))
        dTmrca_mean := (np_mean (eTList F v) : ℝ)
        dTmrca_err := Real.sqrt (np_var (eTList F v)) } := by
  unfold mkRow
  rw [if_pos rfl]
  simp [sortedEMu, sortedET, np_std, np_mean_insertionSort, np_var_insertionSort]

/-- A one-record table with no ratio filter yields exactly the one summary row
of its single group. -/
theorem pivot_singleton (q : Record) (m : String) :
    create_pivot_table [q] none m = [mkRow m [q] (Nmu q)] := by
  simp [create_pivot_table, filterDF, uniqueSorted, groupRow, groupOf]

/-! ### Claim C5: per-record error formulas -/

/-- C5: for every record, the relative mutation-rate error computed on line 153
equals `-(Sim_mu - mu) / Sim_mu = (mu - Sim_mu) / Sim_mu`, and the normalized
Tmrca error of line 157 equals `dTmrca / N` with
`dTmrca = Tmrca - Sim_Tmrca = -(Sim_Tmrca - Tmrca)` (line 44), assuming
`Sim_mu` and `N` are nonzero. -/
theorem e_mu_e_t_formulas (r : Record) (_h1 : r.Sim_mu ≠ 0) (_h2 : r.N ≠ 0) :
    e_mu r = (r.mu - r.Sim_mu) / r.Sim_mu ∧
    e_mu r = -(r.Sim_mu - r.mu) / r.Sim_mu ∧
    e_t r = dTmrca r / r.N ∧
    dTmrca r = r.Tmrca - r.Sim_Tmrca ∧
    dTmrca r = -(r.Sim_Tmrca - r.Tmrca) := by
  refine ⟨?_, rfl, rfl, by unfold dTmrca; ring, rfl⟩
  unfold e_mu
  ring

/-- Concrete record used in the witness of C5. -/
def rC5 : Record := ⟨2, 4, 3, 5, 1, 7⟩

/-- C5 witness: the formulas instantiated at a concrete record with nonzero
`Sim_mu` and `N`. -/
theorem e_mu_e_t_formulas_witness :
    (rC5.Sim_mu ≠ 0 ∧ rC5.N ≠ 0) ∧
    (e_mu rC5 = (rC5.mu - rC5.Sim_mu) / rC5.Sim_mu ∧
     e_mu rC5 = -(rC5.Sim_mu - rC5.mu) / rC5.Sim_mu ∧
     e_t rC5 = dTmrca rC5 / rC5.N ∧
     dTmrca rC5 = rC5.Tmrca - rC5.Sim_Tmrca ∧
     dTmrca rC5 = -(rC5.Sim_Tmrca - rC5.Tmrca)) :=
  ⟨⟨by decide, by decide⟩, e_mu_e_t_formulas rC5 (by decide) (by decide)⟩

/-! ### Claim C7: the output is sorted ascending by the group key -/

/-- C7: for every input table, ratio filter and method, the rows of the summary
table returned by `create_pivot_table` are sorted non-decreasing in the `Nmu`
field (line 183, `res.sort_values(by='Nmu')`). -/
theorem pivot_sorted_by_Nmu (df : List Record) (t : Option ℚ) (m : String) :
    List.Sorted (fun a b : Row => a.Nmu ≤ b.Nmu) (create_pivot_table df t m) := by
  unfold create_pivot_table
  exact List.sorted_insertionSort rowLE _

/-! ### Claim C8: an empty filtered subset yields an empty table, quietly -/

/-- C8: whenever the ratio filter leaves no record, `create_pivot_table`
returns the empty summary table (the embedding is a total function, so no
exception is involved). -/
theorem pivot_empty_of_filter_empty (df : List Record) (t : Option ℚ) (m : String)
    (h : filterDF df t = []) : create_pivot_table df t m = [] := by
  unfold create_pivot_table
  rw [h]
  rfl

/-- Concrete record used in the witness of C8: its ratio `T / N = 2` mismatches
the filter value `5`. -/
def qC8 : Record := ⟨1, 2, 1, 1, 0, 0⟩

/-- C8 witness: a concrete table whose only record fails the ratio filter
produces the empty summary table. -/
theorem pivot_empty_of_filter_empty_witness :
    (filterDF [qC8] (some 5) = []) ∧ create_pivot_table [qC8] (some 5) "median" = [] :=
  ⟨by norm_num [filterDF, qC8, List.filter_cons],
   pivot_empty_of_filter_empty [qC8] (some 5) "median"
     (by norm_num [filterDF, qC8, List.filter_cons])⟩

/-! ### Claim C1 (corrected): there is no `InvalidMethod` failure -/

/-- Concrete record used in the C1 counterexample and witness. -/
def qC1 : Record := ⟨1, 2, 1, 2, 0, 1⟩

/-- C1 counterexample: with the unrecognized method string `"bogus"`,
`create_pivot_table` does not fail and does not produce an empty result; it
returns a nonempty summary table, the same one the `"median"` method returns
(the `if mean_or_median == "mean" ... else ...` on lines 161-173 sends every
method other than `"mean"` to the median branch). -/
theorem pivot_bogus_method_counterexample :
    create_pivot_table [qC1] none "bogus" = create_pivot_table [qC1] none "median" ∧
    (create_pivot_table [qC1] none "bogus").length = 1 := by
  refine ⟨rfl, ?_⟩
  rw [pivot_length_eq]
  simp [filterDF]

/-- C1 (amended): for every input table, ratio filter and method string outside
`{mean, median}`, `create_pivot_table` does not fail; it silently performs the
median aggregation, returning exactly the summary table of the `"median"`
method. -/
theorem pivot_unknown_method_is_median (df : List Record) (t : Option ℚ) (m : String)
    (h : m ≠ "mean" ∧ m ≠ "median") :
    create_pivot_table df t m = create_pivot_table df t "median" := by
  have key : groupRow m (filterDF df t) = groupRow "median" (filterDF df t) := by
    funext v
    unfold groupRow mkRow
    rw [if_neg h.1, if_neg (by decide : ¬("median" = "mean"))]
  unfold create_pivot_table
  rw [key]

/-- C1 witness: the amended claim instantiated at the concrete method string
`"bogus"` and a concrete table. -/
theorem pivot_unknown_method_is_median_witness :
    (("bogus" : String) ≠ "mean" ∧ ("bogus" : String) ≠ "median") ∧
    create_pivot_table [qC1] none "bogus" = create_pivot_table [qC1] none "median" :=
  ⟨⟨by decide, by decide⟩,
    pivot_unknown_method_is_median [qC1] none "bogus" ⟨by decide, by decide⟩⟩

/-! ### Claim C6: records failing the ratio filter have no influence -/

/-- C6: for every method and numeric ratio filter `r`, inserting (equivalently,
removing) a record whose ratio `T / N` differs from `r` anywhere in the input
leaves the summary table unchanged, row for row (lines 134-135 keep only the
records with `T / N == T_over_N`, and all later processing reads the filtered
table `DF` only). -/
theorem pivot_filter_non_influence (l₁ l₂ : List Record) (m : String) (r : ℚ)
    (x : Record) (h : x.T / x.N ≠ r) :
    create_pivot_table (l₁ ++ x :: l₂) (some r) m =
      create_pivot_table (l₁ ++ l₂) (some r) m := by
  have hF : filterDF (l₁ ++ x :: l₂) (some r) = filterDF (l₁ ++ l₂) (some r) := by
    simp only [filterDF, List.filter_append, List.filter_cons]
    rw [if_neg (by simpa using h)]
  unfold create_pivot_table
  rw [hF]

/-- Concrete record kept by the C6 witness filter (`T / N = 2`). -/
def qC6a : Record := ⟨1, 2, 1, 2, 0, 1⟩

/-- Concrete outlier record of the C6 witness (`T / N = 3 ≠ 2`). -/
def qC6b : Record := ⟨1, 3, 1, 2, 0, 1⟩

/-- C6 witness: appending a concrete outlier record with mismatched ratio to a
concrete table leaves the summary table unchanged. -/
theorem pivot_filter_non_influence_witness :
    (qC6b.T / qC6b.N ≠ (2 : ℚ)) ∧
    create_pivot_table ([qC6a] ++ qC6b :: []) (some 2) "median" =
      create_pivot_table ([qC6a] ++ []) (some 2) "median" :=
  ⟨by norm_num [qC6b],
   pivot_filter_non_influence [qC6a] [] "median" 2 qC6b (by norm_num [qC6b])⟩

/-! ### Claim C2: group completeness -/

theorem countP_filterMap_groupRow (m : String) (F : List Record) (x : ℚ) :
    ∀ l : List ℚ, (∀ v ∈ l, ∃ q ∈ F, Nmu q = v) →
      (l.filterMap (groupRow m F)).countP (fun row => decide (row.Nmu = x)) =
        l.countP (fun v => decide (v = x))
  | [], _ => rfl
  | v :: l, h => by
    rw [List.filterMap_cons_some
          (groupRow_of_ne_nil m (groupOf_ne_nil (h v (List.mem_cons_self v l)))),
        List.countP_cons, List.countP_cons,
        countP_filterMap_groupRow m F x l (fun w hw => h w (List.mem_cons_of_mem v hw)),
        mkRow_Nmu]

theorem countP_eq_one_of_nodup_mem :
    ∀ {l : List ℚ} {x : ℚ}, l.Nodup → x ∈ l → l.countP (fun v => decide (v = x)) = 1 := by
  intro l
  induction l with
  | nil => intro x _ hx; exact absurd hx (List.not_mem_nil x)
  | cons a l ih =>
    intro x hnd hx
    have hnd' := List.nodup_cons.mp hnd
    rw [List.countP_cons]
    rcases List.mem_cons.mp hx with h | h
    · subst h
      have hzero : l.countP (fun v => decide (v = x)) = 0 := by
        rw [List.countP_eq_zero]
        intro b hb hbx
        rw [decide_eq_true_eq] at hbx
        subst hbx
        exact hnd'.1 hb
      simp [hzero]
    · have hax : ¬(decide (a = x) = true) := by
        rw [decide_eq_true_eq]
        rintro rfl
        exact hnd'.1 h
      rw [ih hnd'.2 h]
      simp [hax]

/-- C2: for every input table, ratio filter and method, each summary row's
`Nmu` equals `N * Sim_mu` for at least one record of the filtered subset, and
each filtered record's `Nmu` value appears in exactly one summary row. -/
theorem pivot_group_completeness (df : List Record) (t : Option ℚ) (m : String) :
    (∀ row ∈ create_pivot_table df t m, ∃ q ∈ filterDF df t, q.N * q.Sim_mu = row.Nmu) ∧
    (∀ q ∈ filterDF df t,
      (create_pivot_table df t m).countP
        (fun row => decide (row.Nmu = q.N * q.Sim_mu)) = 1) := by
  constructor
  · intro row hrow
    obtain ⟨v, hv, hg⟩ := mem_pivot_iff.mp hrow
    obtain ⟨-, hrow_eq⟩ := groupRow_eq_some hg
    obtain ⟨q, hq, hNmu⟩ := forall_mem_uniqueSorted_exists df t v hv
    refine ⟨q, hq, ?_⟩
    rw [hrow_eq, mkRow_Nmu]
    exact hNmu
  · intro q hq
    unfold create_pivot_table
    rw [(List.perm_insertionSort rowLE _).countP_eq,
        countP_filterMap_groupRow m (filterDF df t) (q.N * q.Sim_mu) _
          (forall_mem_uniqueSorted_exists df t)]
    exact countP_eq_one_of_nodup_mem (nodup_uniqueSorted _)
      (mem_uniqueSorted.mpr (List.mem_map.mpr ⟨q, hq, rfl⟩))

/-! ### Claim C10: the empty-group drop is unreachable and the row count is exact -/

/-- C10: for every input table, ratio filter and method, every candidate key
(the distinct `Nmu` values of the already-filtered subset, line 139) has a
nonempty group — so the `continue` branch of lines 149-151 never fires — and
the number of summary rows equals the number of distinct `Nmu` values of the
filtered subset. -/
theorem pivot_no_empty_groups (df : List Record) (t : Option ℚ) (m : String) :
    (∀ v ∈ uniqueSorted ((filterDF df t).map Nmu),
       groupRow m (filterDF df t) v = some (mkRow m (filterDF df t) v)) ∧
    (create_pivot_table df t m).length = ((filterDF df t).map Nmu).dedup.length :=
  ⟨fun v hv => groupRow_of_ne_nil m (groupOf_ne_nil (forall_mem_uniqueSorted_exists df t v hv)),
   pivot_length_eq df t m⟩

/-! ### Claim C3: median-branch statistics -/

/-- C3: for every summary row produced with the `median` method, `dMu_mean` is
the median of the group's `e_mu` values, `dMu_err` is their interquartile range
(75th minus 25th percentile, linear interpolation between closest ranks), and
likewise `dTmrca_mean` and `dTmrca_err` for the group's `e_t` values — the
standard deviation is not involved. -/
theorem pivot_median_stats (df : List Record) (t : Option ℚ) (row : Row)
    (h : row ∈ create_pivot_table df t "median") :
    row.dMu_mean = (np_median (eMuList (filterDF df t) row.Nmu) : ℝ) ∧
    row.dMu_err = ((np_percentile (eMuList (filterDF df t) row.Nmu) 75 -
                    np_percentile (eMuList (filterDF df t) row.Nmu) 25 : ℚ) : ℝ) ∧
    row.dTmrca_mean = (np_median (eTList (filterDF df t) row.Nmu) : ℝ) ∧
    row.dTmrca_err = ((np_percentile (eTList (filterDF df t) row.Nmu) 75 -
                       np_percentile (eTList (filterDF df t) row.Nmu) 25 : ℚ) : ℝ) := by
  have hrow := mem_pivot_elim h
  rw [hrow, mkRow_Nmu, mkRow_not_mean "median" (by decide)]
  exact ⟨rfl, rfl, rfl, rfl⟩

/-- Concrete record of the C3 witness. -/
def qC3 : Record := ⟨1, 2, 1, 2, 0, 1⟩

/-- Summary row of the C3 witness. -/
noncomputable def rowC3 : Row := mkRow "median" [qC3] (Nmu qC3)

theorem rowC3_mem : rowC3 ∈ create_pivot_table [qC3] none "median" := by
  rw [pivot_singleton]
  exact List.mem_singleton_self _

/-- C3 witness: the median-branch statistics instantiated at a concrete
one-row table. -/
theorem pivot_median_stats_witness :
    (rowC3 ∈ create_pivot_table [qC3] none "median") ∧
    (rowC3.dMu_mean = (np_median (eMuList (filterDF [qC3] none) rowC3.Nmu) : ℝ) ∧
     rowC3.dMu_err = ((np_percentile (eMuList (filterDF [qC3] none) rowC3.Nmu) 75 -
                       np_percentile (eMuList (filterDF [qC3] none) rowC3.Nmu) 25 : ℚ) : ℝ) ∧
     rowC3.dTmrca_mean = (np_median (eTList (filterDF [qC3] none) rowC3.Nmu) : ℝ) ∧
     rowC3.dTmrca_err = ((np_percentile (eTList (filterDF [qC3] none) rowC3.Nmu) 75 -
                          np_percentile (eTList (filterDF [qC3] none) rowC3.Nmu) 25 : ℚ) : ℝ)) :=
  ⟨rowC3_mem, pivot_median_stats [qC3] none rowC3 rowC3_mem⟩

/-! ### Claim C4: mean-branch statistics -/

/-- C4: for every summary row produced with the `mean` method, `dMu_mean` is
the arithmetic mean of the group's `e_mu` values and `dMu_err` their population
standard deviation — nonnegative, with square equal to the mean of squared
deviations with divisor `n`, not `n - 1` — and likewise `dTmrca_mean` and
`dTmrca_err` for the group's `e_t` values. -/
theorem pivot_mean_stats (df : List Record) (t : Option ℚ) (row : Row)
    (h : row ∈ create_pivot_table df t "mean") :
    row.dMu_mean = (np_mean (eMuList (filterDF df t) row.Nmu) : ℝ) ∧
    0 ≤ row.dMu_err ∧
    row.dMu_err ^ 2 =
      ((((eMuList (filterDF df t) row.Nmu).map
          (fun x => (x - np_mean (eMuList (filterDF df t) row.Nmu)) ^ 2)).sum /
        (eMuList (filterDF df t) row.Nmu).length : ℚ) : ℝ) ∧
    row.dTmrca_mean = (np_mean (eTList (filterDF df t) row.Nmu) : ℝ) ∧
    0 ≤ row.dTmrca_err ∧
    row.dTmrca_err ^ 2 =
      ((((eTList (filterDF df t) row.Nmu).map
          (fun x => (x - np_mean (eTList (filterDF df t) row.Nmu)) ^ 2)).sum /
        (eTList (filterDF df t) row.Nmu).length : ℚ) : ℝ) := by
  have hrow := mem_pivot_elim h
  rw [hrow, mkRow_Nmu, mkRow_mean]
  refine ⟨rfl, Real.sqrt_nonneg _, ?_, rfl, Real.sqrt_nonneg _, ?_⟩ <;>
    rw [Real.sq_sqrt (by exact_mod_cast np_var_nonneg _)] <;>
    exact_mod_cast np_var_eq _

/-- Concrete record of the C4 witness. -/
def qC4 : Record := ⟨1, 2, 1, 2, 0, 1⟩

/-- Summary row of the C4 witness. -/
noncomputable def rowC4 : Row := mkRow "mean" [qC4] (Nmu qC4)

theorem rowC4_mem : rowC4 ∈ create_pivot_table [qC4] none "mean" := by
  rw [pivot_singleton]
  exact List.mem_singleton_self _

/-- C4 witness: the mean-branch statistics instantiated at a concrete
one-row table. -/
theorem pivot_mean_stats_witness :
    (rowC4 ∈ create_pivot_table [qC4] none "mean") ∧
    (rowC4.dMu_mean = (np_mean (eMuList (filterDF [qC4] none) rowC4.Nmu) : ℝ) ∧
     0 ≤ rowC4.dMu_err ∧
     rowC4.dMu_err ^ 2 =
       ((((eMuList (filterDF [qC4] none) rowC4.Nmu).map
           (fun x => (x - np_mean (eMuList (filterDF [qC4] none) rowC4.Nmu)) ^ 2)).sum /
         (eMuList (filterDF [qC4] none) rowC4.Nmu).length : ℚ) : ℝ) ∧
     rowC4.dTmrca_mean = (np_mean (eTList (filterDF [qC4] none) rowC4.Nmu) : ℝ) ∧
     0 ≤ rowC4.dTmrca_err ∧
     rowC4.dTmrca_err ^ 2 =
       ((((eTList (filterDF [qC4] none) rowC4.Nmu).map
           (fun x => (x - np_mean (eTList (filterDF [qC4] none) rowC4.Nmu)) ^ 2)).sum /
         (eTList (filterDF [qC4] none) rowC4.Nmu).length : ℚ) : ℝ)) :=
  ⟨rowC4_mem, pivot_mean_stats [qC4] none rowC4 rowC4_mem⟩

/-! ### Claim C9: single-member groups have zero spread -/

/-- C9: for every summary row whose group contains exactly one record, both
spread fields are `0` — the population standard deviation of one value under
`mean`, the interquartile range of one value under any other method — and the
central fields are the record's own error values, so all statistics are
well-defined. -/
theorem pivot_singleton_group_stats (df : List Record) (t : Option ℚ) (m : String)
    (row : Row) (q : Record) (h : row ∈ create_pivot_table df t m)
    (h1 : groupOf (filterDF df t) row.Nmu = [q]) :
    row.dMu_err = 0 ∧ row.dTmrca_err = 0 ∧
    row.dMu_mean = (e_mu q : ℝ) ∧ row.dTmrca_mean = (e_t q : ℝ) := by
  have hrow := mem_pivot_elim h
  by_cases hm : m = "mean"
  · subst hm
    rw [hrow, mkRow_mean]
    simp [eMuList, eTList, h1, np_var_singleton, np_mean_singleton, Real.sqrt_zero]
  · rw [hrow, mkRow_not_mean m hm]
    simp [eMuList, eTList, h1, np_median, np_percentile_singleton]

/-- Concrete record of the C9 witness. -/
def qC9 : Record := ⟨2, 4, 3, 5, 1, 7⟩

/-- Summary row of the C9 witness. -/
noncomputable def rowC9 : Row := mkRow "median" [qC9] (Nmu qC9)

theorem rowC9_mem : rowC9 ∈ create_pivot_table [qC9] none "median" := by
  rw [pivot_singleton]
  exact List.mem_singleton_self _

theorem rowC9_group : groupOf (filterDF [qC9] none) rowC9.Nmu = [qC9] := by
  unfold rowC9
  rw [mkRow_Nmu]
  simp [groupOf, filterDF]

/-- C9 witness: the single-member-group statistics instantiated at a concrete
one-row table. -/
theorem pivot_singleton_group_stats_witness :
    (rowC9 ∈ create_pivot_table [qC9] none "median") ∧
    (groupOf (filterDF [qC9] none) rowC9.Nmu = [qC9]) ∧
    (rowC9.dMu_err = 0 ∧ rowC9.dTmrca_err = 0 ∧
     rowC9.dMu_mean = (e_mu qC9 : ℝ) ∧ rowC9.dTmrca_mean = (e_t qC9 : ℝ)) :=
  ⟨rowC9_mem, rowC9_group,
   pivot_singleton_group_stats [qC9] none "median" rowC9 qC9 rowC9_mem rowC9_group⟩

end TreetimeValidation
